import Mathlib

/-!
Verification development for the react-synth step sequencer.

The definitions below are a shallow embedding of the scheduling and
synthesis logic of `src/components/StepSequencer.tsx` and of the
dual-oscillator voice of `src/main.tsx`. Times, tempos and gain values are
modelled as rationals; the stream of `Math.random()` results is an explicit
parameter `r : ℕ → ℚ` whose values lie in `[0, 1)`.
-/

namespace ReactSynth

/-! ### Melody pattern generator (`getMelodyPattern` in StepSequencer.tsx) -/

/-- MIDI note numbers for a major scale (C4 to C5): `majorScaleMidi` in the
source. -/
def majorScaleMidi : List ℕ := [60, 62, 64, 65, 67, 69, 71, 72, 74, 76]

/-- Per-track arpeggio state held in `arpeggioStateRef.current`: an
`{ index, direction }` record. -/
structure ArpState where
  index : Int
  direction : Int
  deriving DecidableEq, Repr

instance : Inhabited ArpState := ⟨⟨0, 1⟩⟩

/-- The JS remainder operator `%` truncates toward zero, which is `Int.tmod`. -/
def jsRem (x n : Int) : Int := x.tmod n

/-- JS `Math.floor` on a rational value. -/
def jsFloor (q : ℚ) : Int := Rat.floor q

/-- The wrap-around of the arpeggio branch:
`((currentIndex % majorScaleMidi.length) + majorScaleMidi.length) % majorScaleMidi.length`. -/
def wrapIndex (x : Int) : Int :=
  jsRem (jsRem x (majorScaleMidi.length : Int) + (majorScaleMidi.length : Int))
    (majorScaleMidi.length : Int)

/-- One iteration of the `for` loop of `getMelodyPattern`: `branchDraw` is the
`Math.random()` value tested against `0.7`, `valDraw` the `Math.random()`
value consumed inside the taken branch.  With probability 0.7 the index moves
`1 + Math.floor(random * 3)` scaled by `direction` and wraps; otherwise it
jumps to `Math.floor(random * majorScaleMidi.length)`. -/
def melodyIndexStep (branchDraw valDraw : ℚ) (idx dir : Int) : Int :=
  if branchDraw < 7/10 then
    wrapIndex (idx + (1 + jsFloor (valDraw * 3)) * dir)
  else
    jsFloor (valDraw * (majorScaleMidi.length : ℚ))

/-- The loop of `getMelodyPattern`: two random draws are consumed per
iteration from the front of the stream `r`; the function yields the list of
pushed scale indices together with the final `currentIndex`. -/
def melodyRun (r : ℕ → ℚ) : ℕ → Int → Int → List Int × Int
  | 0, idx, _ => ([], idx)
  | n + 1, idx, dir =>
    let ni := melodyIndexStep (r 0) (r 1) idx dir
    let rest := melodyRun (fun j => r (j + 2)) n ni dir
    (ni :: rest.1, rest.2)

/-- The body of `getMelodyPattern(tupletCount, trackIndex)` for one track
state: returns the pattern (`majorScaleMidi[currentIndex]` pushed each
iteration) and the state written back,
`{ index: currentIndex, direction }`. -/
def getMelodyPattern (r : ℕ → ℚ) (tupletCount : ℕ) (st : ArpState) :
    List ℕ × ArpState :=
  let run := melodyRun r tupletCount st.index st.direction
  (run.1.map (fun i => majorScaleMidi.getD i.toNat 0), ⟨run.2, st.direction⟩)

/-- The full call including the read of
`arpeggioStateRef.current[trackIndex]` and the write back to the same slot
(`arpeggioStateRef.current[trackIndex] = { index: currentIndex, direction }`). -/
def getMelodyPatternTracks (r : ℕ → ℚ) (tupletCount trackIndex : ℕ)
    (states : List ArpState) : List ℕ × List ArpState :=
  let st := states.getD trackIndex default
  let res := getMelodyPattern r tupletCount st
  (res.1, states.set trackIndex res.2)

/-! ### Note scheduling (`createParts` in StepSequencer.tsx) -/

/-- The per-part computation `secondsPerBeat = 60.0 / bpm`. -/
def secondsPerBeat (bpm : ℚ) : ℚ := 60 / bpm

/-- The note length `actualDuration = baseDuration * randomFactor` with
`baseDuration = 0.12` and `randomFactor = 0.8 + Math.random() * 0.4`; the
argument `u` is the random draw. -/
def actualDuration (u : ℚ) : ℚ := (12/100) * (8/10 + u * (4/10))

/-- One scheduled trigger/release pair: the created `Tone.Part` fires
`synth.triggerAttackRelease(noteName, actualDuration, time, velocity)` at its
event time, so the note sounds from `trigger` until `trigger + dur`. -/
structure ScheduledNote where
  trigger : ℚ
  dur : ℚ
  note : ℕ
  deriving DecidableEq, Repr

instance : Inhabited ScheduledNote := ⟨⟨0, 0, 0⟩⟩

/-- The release instant of a scheduled pair. -/
def ScheduledNote.release (x : ScheduledNote) : ℚ := x.trigger + x.dur

/-- The per-cell body of `createParts`: for the cell of one track at
`stepIndex` holding tuplet count `n`, the list of notes scheduled.  The code
returns early when `n === 0`; otherwise it computes
`noteInterval = secondsPerBeat / n`, asks `getMelodyPattern` for `n` pitches
(consuming draws `0 .. 2n-1`), and for each `noteIndex` schedules a note at
`stepTime + noteInterval * noteIndex` whose duration consumes draw
`2n + noteIndex`. -/
def scheduleCell (r : ℕ → ℚ) (bpm : ℚ) (stepIndex n : ℕ) (st : ArpState) :
    List ScheduledNote :=
  if n = 0 then []
  else
    let spb := secondsPerBeat bpm
    let noteInterval := spb / (n : ℚ)
    let stepTime := (stepIndex : ℚ) * spb
    let pat := (getMelodyPattern r n st).1
    pat.enum.map (fun p =>
      { trigger := stepTime + noteInterval * (p.1 : ℚ)
        dur := actualDuration (r (2 * n + p.1))
        note := p.2 })

/-! ### Tempo handling (bpm state, bpm effect, BPM input) -/

/-- The bpm `useEffect`: while playing it runs
`Tone.Transport.bpm.value = bpm`, otherwise it leaves the transport tempo
unchanged. -/
def bpmEffect (isPlaying : Bool) (transportBpm newBpm : ℚ) : ℚ :=
  if isPlaying then newBpm else transportBpm

/-- The BPM input onChange handler: `setBpm(Number(e.target.value))`, with no
clamping applied to the numeric value. -/
def onChangeBpm (value : ℚ) : ℚ := value

/-- The `min="20"` attribute of the BPM input element. -/
def bpmInputMin : ℚ := 20

/-- The `max="240"` attribute of the BPM input element. -/
def bpmInputMax : ℚ := 240

/-- Modelled from the spec: the 10-percent-per-step tempo interpolation rule
the spec describes (interpolate current tempo 10 percent of the way toward
target tempo).  No such interpolation exists in the source, which assigns the
transport bpm directly; this definition only serves to compare the update the
code performs with the update the spec describes. -/
def tenPercentStep (current target : ℚ) : ℚ := current + (target - current) * (1/10)

/-! ### Playback stop (`stop` in StepSequencer.tsx) -/

/-- The state acted on by `stop()`: the parts in `partsRef.current` (an entry
`true` means the part is started), the transport, the React cursor state, and
the envelope end times of notes already triggered on the track synths.  The
field `now` is the audio-clock instant at which `stop` is called. -/
structure SequencerState where
  parts : List Bool
  transportStarted : Bool
  transportPosition : ℚ
  isPlaying : Bool
  currentStep : ℕ
  soundingNoteEnds : List ℚ
  now : ℚ
  deriving DecidableEq, Repr

/-- The `stop()` handler: it stops and disposes every part and clears
`partsRef.current`, runs `Tone.Transport.stop()` and
`Tone.Transport.position = 0`, then `setIsPlaying(false)` and
`setCurrentStep(0)`.  No call in `stop` touches the track synths, so the
envelopes of already-triggered notes are left to ring out on the audio
context. -/
def stop (s : SequencerState) : SequencerState :=
  { parts := []
    transportStarted := false
    transportPosition := 0
    isPlaying := false
    currentStep := 0
    soundingNoteEnds := s.soundingNoteEnds
    now := s.now }

/-! ### DualOscVoice (`main.tsx`, dual-oscillator variant) -/

/-- The threshold of `_triggerEnvelopeRelease`:
`if (level < 0.001 && this.onsilence)`. -/
def silenceThreshold : ℚ := 1/1000

/-- The timeout delay
`releaseDuration = Tone.Time(this.envelope.release).toSeconds() + 0.1`. -/
def releaseCheckDelay (envRelease : ℚ) : ℚ := envRelease + 1/10

/-- The absolute time at which the `context.setTimeout` callback runs, counted
from the instant `tnow` at which `_triggerEnvelopeRelease` executes. -/
def silenceCheckTime (tnow envRelease : ℚ) : ℚ := tnow + releaseCheckDelay envRelease

/-- The body of the timeout callback: `onsilence` is invoked exactly when the
evaluated envelope level at the check instant is below the threshold and the
`onsilence` callback is set.  The function `level` stands for
`getLevelAtTime`, which the voice delegates to
`envelope.getValueAtTime` (library-provided). -/
def onsilenceFires (level : ℚ → ℚ) (hasOnsilence : Bool) (t : ℚ) : Bool :=
  decide (level t < silenceThreshold) && hasOnsilence

/-- JS `a || b`: the default `d` is used when `a` is absent or falsy (0). -/
def jsOrDefault (v : Option ℚ) (d : ℚ) : ℚ :=
  match v with
  | none => d
  | some x => if x = 0 then d else x

/-- The effective mix value used for both gains: `settings?.oscMix || 0.5`. -/
def oscMixEffective (oscMix : Option ℚ) : ℚ := jsOrDefault oscMix (1/2)

/-- The gain `const osc1Gain = new Tone.Gain(1 - (settings?.oscMix || 0.5))`. -/
def osc1GainValue (oscMix : Option ℚ) : ℚ := 1 - oscMixEffective oscMix

/-- The gain `const osc2Gain = new Tone.Gain(settings?.oscMix || 0.5)`. -/
def osc2GainValue (oscMix : Option ℚ) : ℚ := oscMixEffective oscMix

/-! ### Concrete random streams used by witnesses and counterexamples -/

/-- A random stream whose every draw is `0.5`. -/
def rHalf : ℕ → ℚ := fun _ => 1/2

/-- A random stream agreeing with `rHalf` on the first four draws only. -/
def rAlt : ℕ → ℚ := fun j => if j < 4 then 1/2 else 0

/-- A random stream whose every draw is `0.75`. -/
def rThreeQuarters : ℕ → ℚ := fun _ => 3/4

/-- A concrete sequencer state with a started part and one sounding note whose
envelope ends at `t = 10`, with `stop` called at `now = 2`. -/
def stateBeforeStop : SequencerState :=
  { parts := [true]
    transportStarted := true
    transportPosition := 3
    isPlaying := true
    currentStep := 5
    soundingNoteEnds := [10]
    now := 2 }

/-- A constant-zero envelope level, used to instantiate the silence check. -/
def levelZero : ℚ → ℚ := fun _ => 0

/-! ### Helper lemmas -/

theorem majorScaleMidi_length : majorScaleMidi.length = 10 := rfl

theorem jsFloor_eq_intFloor (q : ℚ) : jsFloor q = ⌊q⌋ := by
  rw [jsFloor, Rat.floor_def', ← Rat.floor_def]

theorem tmod_ten_lowerBound (x : Int) : -10 < x.tmod 10 := by
  cases x with
  | ofNat m =>
      have h : 0 ≤ (Int.ofNat m).tmod 10 := Int.tmod_nonneg _ (Int.ofNat_nonneg m)
      omega
  | negSucc m =>
      have h : (Int.negSucc m).tmod 10 = -(((m + 1) % 10 : ℕ) : Int) := rfl
      have h2 : (m + 1) % 10 < 10 := Nat.mod_lt _ (by omega)
      omega

theorem wrapIndex_def (x : Int) : wrapIndex x = (x.tmod 10 + 10).tmod 10 := rfl

theorem wrapIndex_range (x : Int) : 0 ≤ wrapIndex x ∧ wrapIndex x < 10 := by
  have lb := tmod_ten_lowerBound x
  have ub := Int.tmod_lt_of_pos x (show (0:Int) < 10 by norm_num)
  have h1 : 0 ≤ x.tmod 10 + 10 := by omega
  have h2 : (x.tmod 10 + 10).tmod 10 = (x.tmod 10 + 10) % 10 :=
    Int.tmod_eq_emod h1 (by norm_num)
  rw [wrapIndex_def, h2]
  exact ⟨Int.emod_nonneg _ (by norm_num), Int.emod_lt_of_pos _ (by norm_num)⟩

theorem melodyIndexStep_range (b v : ℚ) (hv0 : 0 ≤ v) (hv1 : v < 1) (idx dir : Int) :
    0 ≤ melodyIndexStep b v idx dir ∧ melodyIndexStep b v idx dir < 10 := by
  unfold melodyIndexStep
  split
  · exact wrapIndex_range _
  · rw [jsFloor_eq_intFloor]
    constructor
    · exact Int.floor_nonneg.mpr (by positivity)
    · apply Int.floor_lt.mpr
      push_cast [majorScaleMidi_length]
      nlinarith

theorem melodyRun_length (n : ℕ) :
    ∀ (r : ℕ → ℚ) (idx dir : Int), (melodyRun r n idx dir).1.length = n := by
  induction n with
  | zero => intro r idx dir; rfl
  | succ m ih =>
      intro r idx dir
      simp [melodyRun, ih]

theorem melodyRun_mem_range (n : ℕ) :
    ∀ (r : ℕ → ℚ), (∀ j, 0 ≤ r j ∧ r j < 1) → ∀ (idx dir : Int),
      ∀ i ∈ (melodyRun r n idx dir).1, 0 ≤ i ∧ i < 10 := by
  induction n with
  | zero => intro r hr idx dir i hi; simp [melodyRun] at hi
  | succ m ih =>
      intro r hr idx dir i hi
      simp only [melodyRun, List.mem_cons] at hi
      rcases hi with h | h
      · subst h
        exact melodyIndexStep_range (r 0) (r 1) (hr 1).1 (hr 1).2 idx dir
      · exact ih (fun j => r (j + 2)) (fun j => hr (j + 2)) _ dir i h

theorem melodyRun_congr (n : ℕ) :
    ∀ (r1 r2 : ℕ → ℚ), (∀ j, j < 2 * n → r1 j = r2 j) → ∀ (idx dir : Int),
      melodyRun r1 n idx dir = melodyRun r2 n idx dir := by
  induction n with
  | zero => intro r1 r2 h idx dir; rfl
  | succ m ih =>
      intro r1 r2 h idx dir
      have h0 : r1 0 = r2 0 := h 0 (by omega)
      have h1 : r1 1 = r2 1 := h 1 (by omega)
      have hrec := ih (fun j => r1 (j + 2)) (fun j => r2 (j + 2))
        (fun j hj => h (j + 2) (by omega))
      simp only [melodyRun, h0, h1]
      rw [hrec _ dir]

theorem enum_map_fst_comp {α β : Type} (l : List α) (F : ℕ → β) :
    l.enum.map (fun p => F p.1) = (List.range l.length).map F := by
  rw [show (fun p : ℕ × α => F p.1) = F ∘ Prod.fst from rfl, ← List.map_map,
    List.enum_map_fst]

theorem actualDuration_bounds (u : ℚ) (h0 : 0 ≤ u) (h1 : u < 1) :
    96/1000 ≤ actualDuration u ∧ actualDuration u < 144/1000 := by
  unfold actualDuration
  constructor <;> nlinarith

/-! ### Evaluation lemmas on the concrete random streams -/

theorem melodyIndexStep_half (idx dir : Int) :
    melodyIndexStep (1/2) (1/2) idx dir = wrapIndex (idx + 2 * dir) := by
  rw [melodyIndexStep, if_pos (by norm_num), jsFloor_eq_intFloor]
  norm_num

theorem melodyIndexStep_threeQuarters (idx dir : Int) :
    melodyIndexStep (3/4) (3/4) idx dir = 7 := by
  rw [melodyIndexStep, if_neg (by norm_num), jsFloor_eq_intFloor]
  have h : ((majorScaleMidi.length : ℕ) : ℚ) = 10 := by
    rw [majorScaleMidi_length]; norm_num
  rw [h]
  norm_num

theorem melodyRun_rHalf_eval : melodyRun rHalf 2 0 1 = ([2, 4], 4) := by
  norm_num [show (2:ℕ) = 1 + 1 from rfl, melodyRun, melodyIndexStep_half, rHalf]
  decide

theorem melodyRun_rThreeQuarters_eval : melodyRun rThreeQuarters 2 0 1 = ([7, 7], 7) := by
  norm_num [show (2:ℕ) = 1 + 1 from rfl, melodyRun, melodyIndexStep_threeQuarters,
    rThreeQuarters]

theorem getMelodyPattern_rHalf_eval :
    getMelodyPattern rHalf 2 ⟨0, 1⟩ = ([64, 67], ⟨4, 1⟩) := by
  simp only [getMelodyPattern, melodyRun_rHalf_eval]
  decide

theorem getMelodyPattern_rThreeQuarters_eval :
    getMelodyPattern rThreeQuarters 2 ⟨0, 1⟩ = ([72, 72], ⟨7, 1⟩) := by
  simp only [getMelodyPattern, melodyRun_rThreeQuarters_eval]
  decide

theorem scheduleCell_rHalf_eval :
    scheduleCell rHalf 60 0 2 ⟨0, 1⟩ =
      [⟨0, 3/25, 64⟩, ⟨1/2, 3/25, 67⟩] := by
  simp only [scheduleCell, if_neg (by norm_num : ¬ (2 = 0)), getMelodyPattern_rHalf_eval]
  norm_num [List.enum, List.enumFrom, secondsPerBeat, actualDuration, rHalf]

theorem scheduleCell_rThreeQuarters_eval :
    scheduleCell rThreeQuarters 60 0 2 ⟨0, 1⟩ =
      [⟨0, 33/250, 72⟩, ⟨1/2, 33/250, 72⟩] := by
  simp only [scheduleCell, if_neg (by norm_num : ¬ (2 = 0)),
    getMelodyPattern_rThreeQuarters_eval]
  norm_num [List.enum, List.enumFrom, secondsPerBeat, actualDuration, rThreeQuarters]

/-! ### Claim theorems -/

/-- C1, counterexample: the bpm effect of the sequencer does not move the
transport tempo 10 percent of the remaining distance toward the target; with
current tempo 60 and newly set target 120 while playing, the transport tempo
becomes 120 in a single update (an instantaneous jump), not the 66 that the
10-percent rule would give. -/
theorem C1_counterexample :
    bpmEffect true 60 120 = 120 ∧ tenPercentStep 60 120 = 66 ∧
    bpmEffect true 60 120 ≠ tenPercentStep 60 120 := by
  refine ⟨rfl, by norm_num [tenPercentStep], by norm_num [bpmEffect, tenPercentStep]⟩

/-- C1, amended: while playing, a newly set tempo is applied to the transport
immediately and exactly (`Tone.Transport.bpm.value = bpm`), so the distance to
the target after one update is zero; while stopped the transport tempo is left
unchanged.  There is no per-step interpolation in the code. -/
theorem C1_bpm_assigned_directly (transportBpm newBpm : ℚ) :
    bpmEffect true transportBpm newBpm = newBpm ∧
    bpmEffect false transportBpm newBpm = transportBpm ∧
    newBpm - bpmEffect true transportBpm newBpm = 0 := by
  refine ⟨rfl, rfl, by simp [bpmEffect]⟩

/-- C4, counterexample: `stop()` does not silence active voices at the stop
instant.  In a state with one sounding note whose envelope ends at `t = 10`
and `stop` called at `now = 2`, the note is still sounding after `stop` (its
end time survives unchanged and lies past the stop instant), even though the
step cursor is reset to 0. -/
theorem C4_counterexample :
    (10 : ℚ) ∈ (stop stateBeforeStop).soundingNoteEnds ∧
    (stop stateBeforeStop).now < 10 ∧
    (stop stateBeforeStop).currentStep = 0 := by
  refine ⟨by simp [stop, stateBeforeStop], by norm_num [stop, stateBeforeStop], rfl⟩

/-- C4, amended: stopping playback stops and disposes every scheduled part
(so no further notes are scheduled), stops the transport and resets its
position, and resets the step cursor to 0; but it leaves already-triggered
voices untouched, so their envelopes run their normal release tails instead of
being cut off at the stop instant. -/
theorem C4_stop_resets_but_lets_voices_ring (s : SequencerState) :
    (stop s).parts = [] ∧
    (stop s).transportStarted = false ∧
    (stop s).transportPosition = 0 ∧
    (stop s).isPlaying = false ∧
    (stop s).currentStep = 0 ∧
    (stop s).soundingNoteEnds = s.soundingNoteEnds :=
  ⟨rfl, rfl, rfl, rfl, rfl, rfl⟩

/-- C6, counterexample: the BPM input is not clamped.  Entering 500 makes the
scheduler use tempo 500, which exceeds the upper bound 240 of the advertised
range, so an out-of-range tempo does reach the audio path. -/
theorem C6_counterexample :
    bpmEffect true 60 (onChangeBpm 500) = 500 ∧
    ¬ (onChangeBpm 500 ≤ bpmInputMax) := by
  norm_num [bpmEffect, onChangeBpm, bpmInputMax]

/-- C6, amended: the onChange handler of the BPM input accepts the numeric
value as is (`setBpm(Number(e.target.value))`, with no clamping), and while
playing the scheduler uses exactly that value: the bounds 20 and 240 appear
only as `min`/`max` attributes of the input element and are not enforced by
the handler. -/
theorem C6_bpm_not_clamped (input transportBpm : ℚ) :
    onChangeBpm input = input ∧
    bpmEffect true transportBpm (onChangeBpm input) = input ∧
    secondsPerBeat (bpmEffect true transportBpm (onChangeBpm input)) = 60 / input :=
  ⟨rfl, rfl, rfl⟩

/-- C8: after a voice release, the silence check of `_triggerEnvelopeRelease`
runs at the release instant plus the envelope release duration plus a 0.1
guard band, strictly after the nominal release end; the `onsilence` callback
fires exactly when the evaluated envelope level at the check time is below the
threshold 0.001, and whenever it fires the level is below that threshold, so
the voice is never reported reclaimable before its envelope has decayed below
0.001. -/
theorem C8_silence_check (level : ℚ → ℚ) (tnow envRelease : ℚ) :
    tnow + envRelease < silenceCheckTime tnow envRelease ∧
    (onsilenceFires level true (silenceCheckTime tnow envRelease) = true ↔
      level (silenceCheckTime tnow envRelease) < silenceThreshold) ∧
    (∀ t, onsilenceFires level true t = true → level t < silenceThreshold) := by
  refine ⟨?_, ?_, ?_⟩
  · simp only [silenceCheckTime, releaseCheckDelay]
    linarith
  · simp [onsilenceFires]
  · intro t h
    simpa [onsilenceFires] using h

/-- C8, witness: the silence check at release instant 0 with envelope release
1 runs at 1.1, strictly after the nominal release end, and with an envelope
level evaluating to 0 the `onsilence` callback does fire and the level is
below the threshold. -/
theorem C8_silence_check_witness :
    (0 : ℚ) + 1 < silenceCheckTime 0 1 ∧
    onsilenceFires levelZero true (silenceCheckTime 0 1) = true ∧
    levelZero (silenceCheckTime 0 1) < silenceThreshold := by
  have h := C8_silence_check levelZero 0 1
  have hl : levelZero (silenceCheckTime 0 1) < silenceThreshold := by
    norm_num [levelZero, silenceThreshold]
  exact ⟨h.1, h.2.1.mpr hl, h.2.2 _ (h.2.1.mpr hl)⟩

/-- C10: for every oscMix setting the two oscillator mix gains of the
dual-oscillator voice sum to exactly 1; a falsy oscMix of 0 is replaced by the
0.5 default, so oscMix 0 yields the equal mix 0.5/0.5 rather than an
osc1-only voice. -/
theorem C10_osc_gains_sum_to_one (oscMix : Option ℚ) :
    osc1GainValue oscMix + osc2GainValue oscMix = 1 ∧
    osc1GainValue (some 0) = 1/2 ∧
    osc2GainValue (some 0) = 1/2 ∧
    osc1GainValue (some 0) ≠ 1 := by
  refine ⟨by simp [osc1GainValue, osc2GainValue], ?_, ?_, ?_⟩ <;>
    norm_num [osc1GainValue, osc2GainValue, oscMixEffective, jsOrDefault]

/-- C5: for every tupletCount, every starting arpeggio state (with arbitrary
index and direction) and every stream of random draws in `[0, 1)`, every scale
index produced by the pattern generator lies within `[0, majorScaleMidi.length)`
(the modulo wrap never yields an out-of-range or negative index), and every
produced pitch is an element of the configured scale.  Since the starting
state is arbitrary, this holds across arbitrarily many successive calls. -/
theorem C5_pattern_within_scale (r : ℕ → ℚ) (hr : ∀ j, 0 ≤ r j ∧ r j < 1)
    (tupletCount : ℕ) (st : ArpState) :
    (∀ i ∈ (melodyRun r tupletCount st.index st.direction).1,
        0 ≤ i ∧ i < (majorScaleMidi.length : Int)) ∧
    (∀ p ∈ (getMelodyPattern r tupletCount st).1, p ∈ majorScaleMidi) := by
  have hidx := melodyRun_mem_range tupletCount r hr st.index st.direction
  constructor
  · intro i hi
    have h := hidx i hi
    rw [majorScaleMidi_length]
    exact_mod_cast h
  · intro p hp
    simp only [getMelodyPattern, List.mem_map] at hp
    obtain ⟨i, hi, rfl⟩ := hp
    obtain ⟨h0, h10⟩ := hidx i hi
    have hlt : i.toNat < majorScaleMidi.length := by
      rw [majorScaleMidi_length]; omega
    rw [List.getD_eq_getElem majorScaleMidi 0 hlt]
    exact List.getElem_mem hlt

/-- C5, witness: with the constant stream 0.5 and starting state
`{index 0, direction 1}`, a call with tupletCount 2 produces the pitch 64,
which is an element of the scale. -/
theorem C5_pattern_within_scale_witness :
    (64 : ℕ) ∈ (getMelodyPattern rHalf 2 ⟨0, 1⟩).1 ∧ (64 : ℕ) ∈ majorScaleMidi := by
  have h := C5_pattern_within_scale rHalf
    (fun j => ⟨by norm_num [rHalf], by norm_num [rHalf]⟩) 2 ⟨0, 1⟩
  have hm : (64 : ℕ) ∈ (getMelodyPattern rHalf 2 ⟨0, 1⟩).1 := by
    rw [getMelodyPattern_rHalf_eval]
    simp
  exact ⟨hm, h.2 64 hm⟩

/-- C7: the pattern generator is deterministic in its random source.  Two runs
given identical streams of random draws (they must agree on the 2·tupletCount
draws the call consumes), the same starting state, and the same tupletCount
produce the identical pitch sequence and the identical final state. -/
theorem C7_identical_draws_identical_pattern (r1 r2 : ℕ → ℚ) (tupletCount : ℕ)
    (st : ArpState) (h : ∀ j, j < 2 * tupletCount → r1 j = r2 j) :
    getMelodyPattern r1 tupletCount st = getMelodyPattern r2 tupletCount st := by
  unfold getMelodyPattern
  rw [melodyRun_congr tupletCount r1 r2 h st.index st.direction]

/-- C7, witness: the streams `rHalf` and `rAlt` agree on the four draws a
tupletCount-2 call consumes (and differ beyond), and the two runs produce the
identical result. -/
theorem C7_identical_draws_identical_pattern_witness :
    getMelodyPattern rHalf 2 ⟨0, 1⟩ = getMelodyPattern rAlt 2 ⟨0, 1⟩ :=
  C7_identical_draws_identical_pattern rHalf rAlt 2 ⟨0, 1⟩
    (fun j hj => by
      have hj4 : j < 4 := by omega
      simp [rHalf, rAlt, hj4])

/-- C9: a call of the pattern generator for track `trackIndex` with a given
tupletCount returns exactly tupletCount pitches, and mutates only the arpeggio
state entry of that track: every other slot of the state array is unchanged,
and even the direction field of the written slot equals the direction that was
read (the code writes back `{ index: currentIndex, direction }` with
`direction` never reassigned). -/
theorem C9_pattern_call_frame (r : ℕ → ℚ) (tupletCount trackIndex : ℕ)
    (states : List ArpState) (ht : trackIndex < states.length) :
    ((getMelodyPatternTracks r tupletCount trackIndex states).1).length = tupletCount ∧
    ((getMelodyPatternTracks r tupletCount trackIndex states).2).length = states.length ∧
    (∀ j, j ≠ trackIndex →
      ((getMelodyPatternTracks r tupletCount trackIndex states).2)[j]? = states[j]?) ∧
    (((getMelodyPatternTracks r tupletCount trackIndex states).2).getD trackIndex
        default).direction =
      (states.getD trackIndex default).direction := by
  refine ⟨?_, ?_, ?_, ?_⟩
  · simp [getMelodyPatternTracks, getMelodyPattern, melodyRun_length]
  · simp [getMelodyPatternTracks]
  · intro j hj
    simp only [getMelodyPatternTracks]
    exact List.getElem?_set_ne (fun hc => hj hc.symm)
  · simp only [getMelodyPatternTracks, getMelodyPattern]
    rw [List.getD_eq_getElem _ _ (by simpa using ht), List.getElem_set_self,
      List.getD_eq_getElem _ _ ht]

/-- C9, witness: with two tracks in states `{0, 1}` and `{5, 1}`, a
tupletCount-2 call for track 1 yields two pitches, leaves slot 0 untouched,
and preserves the direction of slot 1. -/
theorem C9_pattern_call_frame_witness :
    ((getMelodyPatternTracks rHalf 2 1 [⟨0, 1⟩, ⟨5, 1⟩]).1).length = 2 ∧
    ((getMelodyPatternTracks rHalf 2 1 [⟨0, 1⟩, ⟨5, 1⟩]).2)[0]? =
      ([⟨0, 1⟩, ⟨5, 1⟩] : List ArpState)[0]? ∧
    (((getMelodyPatternTracks rHalf 2 1 [⟨0, 1⟩, ⟨5, 1⟩]).2).getD 1 default).direction =
      (([⟨0, 1⟩, ⟨5, 1⟩] : List ArpState).getD 1 default).direction := by
  have h := C9_pattern_call_frame rHalf 2 1 [⟨0, 1⟩, ⟨5, 1⟩] (by norm_num)
  exact ⟨h.1, h.2.2.1 0 (by omega), h.2.2.2⟩

/-- C2: for every step and every track cell with tuplet count `n > 0`,
`createParts` schedules exactly `n` trigger/release pairs for that cell, with
the trigger of pair `i` at `stepTime + i * (secondsPerBeat / n)` where
`stepTime = stepIndex * secondsPerBeat` and `secondsPerBeat = 60 / tempo`;
a cell with tuplet count 0 schedules nothing. -/
theorem C2_cell_schedules_n_pairs (r : ℕ → ℚ) (bpm : ℚ) (stepIndex n : ℕ)
    (st : ArpState) :
    (scheduleCell r bpm stepIndex n st).length = n ∧
    (scheduleCell r bpm stepIndex n st).map ScheduledNote.trigger =
      (List.range n).map (fun (i : ℕ) =>
        (stepIndex : ℚ) * secondsPerBeat bpm + (i : ℚ) * (secondsPerBeat bpm / (n : ℚ))) ∧
    scheduleCell r bpm stepIndex 0 st = [] := by
  have hz : scheduleCell r bpm stepIndex 0 st = [] := by simp [scheduleCell]
  rcases Nat.eq_zero_or_pos n with hn | hn
  · subst hn
    exact ⟨by simp [hz], by simp [hz], hz⟩
  · have hne : n ≠ 0 := Nat.pos_iff_ne_zero.mp hn
    have hlen : (scheduleCell r bpm stepIndex n st).length = n := by
      simp [scheduleCell, hne, getMelodyPattern, melodyRun_length]
    refine ⟨hlen, ?_, hz⟩
    refine List.ext_getElem ?_ ?_
    · simpa using hlen
    · intro i h1 h2
      simp only [scheduleCell, if_neg hne, List.getElem_map, List.getElem_enum,
        List.getElem_range]
      ring

/-- C3, counterexample: the note duration is not a fixed value bounded by
0.12 s.  In the concrete scenario of the claim (tempo 60, tuplet count 2)
with every random draw equal to 0.75, the first scheduled note is released
0.132 s after its trigger, which exceeds 0.12 s. -/
theorem C3_counterexample :
    ((scheduleCell rThreeQuarters 60 0 2 ⟨0, 1⟩).getD 0 default).release -
      ((scheduleCell rThreeQuarters 60 0 2 ⟨0, 1⟩).getD 0 default).trigger > 12/100 := by
  rw [scheduleCell_rThreeQuarters_eval]
  norm_num [ScheduledNote.release]

/-- C3, amended: every scheduled note is released a randomized duration
`0.12 * (0.8 + 0.4 * u)` after its own trigger, where `u` is the random draw,
so the duration lies in `[0.096, 0.144)`; each release is strictly after its
own trigger, and whenever one sub-interval `secondsPerBeat / n` is at least
0.144 s (as in the concrete scenario: 60 bpm and tuplet count 2, where the
sub-interval is 0.5 s) every release also falls strictly before the next
pair's trigger. -/
theorem C3_release_timing (r : ℕ → ℚ) (hr : ∀ j, 0 ≤ r j ∧ r j < 1)
    (bpm : ℚ) (stepIndex n : ℕ) (st : ArpState) :
    (∀ x ∈ scheduleCell r bpm stepIndex n st,
        96/1000 ≤ x.dur ∧ x.dur < 144/1000 ∧ x.trigger < x.release) ∧
    (144/1000 ≤ secondsPerBeat bpm / (n : ℚ) →
      (scheduleCell r bpm stepIndex n st).Chain' (fun a b => a.release < b.trigger)) := by
  rcases Nat.eq_zero_or_pos n with hn | hn
  · subst hn
    constructor
    · intro x hx
      simp [scheduleCell] at hx
    · intro _
      simp [scheduleCell]
  · have hne : n ≠ 0 := Nat.pos_iff_ne_zero.mp hn
    constructor
    · intro x hx
      simp only [scheduleCell, if_neg hne, List.mem_map] at hx
      obtain ⟨p, hp, rfl⟩ := hx
      obtain ⟨hd1, hd2⟩ :=
        actualDuration_bounds (r (2 * n + p.1)) (hr (2 * n + p.1)).1 (hr (2 * n + p.1)).2
      refine ⟨hd1, hd2, ?_⟩
      simp only [ScheduledNote.release]
      linarith
    · intro hgap
      rw [List.chain'_iff_get]
      intro i hi
      have hlen : (scheduleCell r bpm stepIndex n st).length = n := by
        simp [scheduleCell, hne, getMelodyPattern, melodyRun_length]
      have hi1 : i < (scheduleCell r bpm stepIndex n st).length := by omega
      have hi2 : i + 1 < (scheduleCell r bpm stepIndex n st).length := by omega
      have hdur : ∀ j, actualDuration (r j) < 144/1000 := fun j =>
        (actualDuration_bounds (r j) (hr j).1 (hr j).2).2
      simp only [scheduleCell, if_neg hne, List.get_eq_getElem, List.getElem_map,
        List.getElem_enum, ScheduledNote.release]
      have hd := hdur (2 * n + i)
      push_cast
      nlinarith [hgap, hd]

/-- C3, witness: in the concrete scenario (tempo 60, tuplet count 2) with
every random draw equal to 0.5, the first note's duration lies in
`[0.096, 0.144)` and every release falls strictly before the next pair's
trigger. -/
theorem C3_release_timing_witness :
    96/1000 ≤ ((scheduleCell rHalf 60 0 2 ⟨0, 1⟩).getD 0 default).dur ∧
    ((scheduleCell rHalf 60 0 2 ⟨0, 1⟩).getD 0 default).dur < 144/1000 ∧
    (scheduleCell rHalf 60 0 2 ⟨0, 1⟩).Chain' (fun a b => a.release < b.trigger) := by
  have h := C3_release_timing rHalf
    (fun j => ⟨by norm_num [rHalf], by norm_num [rHalf]⟩) 60 0 2 ⟨0, 1⟩
  have hchain := h.2 (by norm_num [secondsPerBeat])
  have hmem : (scheduleCell rHalf 60 0 2 ⟨0, 1⟩).getD 0 default ∈
      scheduleCell rHalf 60 0 2 ⟨0, 1⟩ := by
    rw [scheduleCell_rHalf_eval]
    simp
  obtain ⟨h1, h2, _⟩ := h.1 _ hmem
  exact ⟨h1, h2, hchain⟩

end ReactSynth
